import Mathlib

/-!
Verification of the go-rate-limiter sliding-window rate limiter.

The model is a shallow embedding of `internal/limiter` (the `RateLimiter`
struct, `NewRateLimiter`, `IsRequestAllowed`) and of the Lua script
`slidingWindowScript` that the limiter runs atomically on Redis.

Representation choices:
  * A Redis sorted-set entry is a pair (score, member); scores here are the
    admission timestamps in epoch milliseconds.  `time.Now().UnixMilli()` and
    `time.Now().UnixNano()` are non-negative for any real clock, so `now`,
    `window` and the stored scores are `Nat` (the int64 values are nowhere
    near overflow, so no modular arithmetic is needed); comparisons that the
    Lua script performs on possibly-negative quantities (`now - window`) are
    done in `Int`, exactly as Lua does them.
  * `limit` is a Go `int`, which may be negative, so it is modelled as `Int`.
  * The outcome of the single Redis round trip made by `IsRequestAllowed` is
    an explicit input (`storeErr`): `none` means the script ran and returned
    its integer, `some e` means the call failed with error `e` (transport
    failure, cancellation, or script evaluation failure) — in Go this is the
    non-nil `err` from `slidingWindowScript.Run(...).Int()`.
-/

namespace RateLimiterModel

/-- One member of the per-key Redis sorted set: an admission timestamp
(the ZADD score, epoch milliseconds) and the unique request id (the ZADD
member string). -/
structure Entry where
  score : Nat
  member : String
deriving DecidableEq, Repr

/-- The Redis state backing one rate-limit key: the sorted-set contents and
the key's expiry deadline (absolute epoch milliseconds) as set by PEXPIRE,
or `none` if no expiry has been set. -/
structure KeyState where
  hist : List Entry
  expiry : Option Nat
deriving DecidableEq, Repr

/-- A fresh (never used) key: empty sorted set, no expiry. -/
def KeyState.empty : KeyState := ⟨[], none⟩

/-- Redis ZREMRANGEBYSCORE key lo hi: removes every entry whose score lies in
the inclusive range [lo, hi]. -/
def zremrangebyscore (lo hi : Int) (h : List Entry) : List Entry :=
  h.filter fun e => !(decide (lo ≤ (e.score : Int)) && decide ((e.score : Int) ≤ hi))

/-- Redis ZADD key score member: if the member is already present its score
is updated, otherwise a new entry is added.  The sorted set de-duplicates by
member identity, never by score. -/
def zadd (score : Nat) (member : String) (h : List Entry) : List Entry :=
  (h.filter fun e => !(e.member == member)) ++ [⟨score, member⟩]

/-- The Lua script `slidingWindowScript`, executed atomically by Redis on the
state of the one key it is invoked with.  It evicts entries with score in
[0, now - window], counts the remainder (ZCARD), and if the count is below
the limit inserts the new entry, refreshes the key expiry to `window`
milliseconds from now, and returns 0; otherwise it returns 1. -/
def slidingWindowScript (now window : Nat) (limit : Int) (requestID : String)
    (st : KeyState) : KeyState × Int :=
  let clearBefore : Int := (now : Int) - (window : Int)
  let hist := zremrangebyscore 0 clearBefore st.hist
  let currentCount := hist.length
  if (currentCount : Int) < limit then
    (⟨zadd now requestID hist, some (now + window)⟩, 0)
  else
    (⟨hist, st.expiry⟩, 1)

/-- A RateLimiter holds the rate limit and the sliding window duration
(the Redis client handle is not part of the pure model). -/
structure RateLimiter where
  limit : Int
  window : Nat

/-- Creates a new RateLimiter. -/
def NewRateLimiter (limit : Int) (window : Nat) : RateLimiter :=
  { limit := limit, window := window }

/-- The unique request id generated by IsRequestAllowed:
fmt.Sprintf with the millisecond timestamp and a nanosecond reading taken
from a second call to time.Now. -/
def requestID (now nano : Nat) : String := s!"{now}-{nano}"

/-- Reports whether the request is allowed.  `now` and `nano` are the two
clock readings the Go code takes; `storeErr` is the outcome of the Redis
round trip; `st` is the key's Redis state when the script runs.  Returns the
boolean decision and the key's resulting Redis state.  If Redis is down the
limiter fails open (returns true) and the state is untouched. -/
def RateLimiter.IsRequestAllowed (rl : RateLimiter) (now nano : Nat)
    (storeErr : Option String) (st : KeyState) : Bool × KeyState :=
  match storeErr with
  | some _ => (true, st)
  | none =>
    let r := slidingWindowScript now rl.window rl.limit (requestID now nano) st
    (decide (r.2 = 0), r.1)

/-- Runs a sequence of IsRequestAllowed calls against one key with the store
reachable throughout; each call is the pair of clock readings (now, nano).
Returns the final key state and the list of decisions in call order. -/
def runCalls (rl : RateLimiter) (calls : List (Nat × Nat)) (st : KeyState) :
    KeyState × List Bool :=
  match calls with
  | [] => (st, [])
  | c :: rest =>
    let r := rl.IsRequestAllowed c.1 c.2 none st
    let rr := runCalls rl rest r.2
    (rr.1, r.1 :: rr.2)

/-- The states of a key reachable from fresh by any sequence of script
invocations (the only way the limiter ever mutates a key). -/
inductive Reachable (limit : Int) (window : Nat) : KeyState → Prop
  | empty : Reachable limit window KeyState.empty
  | step (st : KeyState) (now : Nat) (id : String) :
      Reachable limit window st →
      Reachable limit window (slidingWindowScript now window limit id st).1

/-- The multi-key Redis store: every key has a state (fresh by default). -/
def Store := String → KeyState

/-- One script invocation against the whole store: only the addressed key's
state is read and written. -/
def runScript (key : String) (now window : Nat) (limit : Int) (id : String)
    (store : Store) : Store × Int :=
  let r := slidingWindowScript now window limit id (store key)
  (fun k => if k = key then r.1 else store k, r.2)

/-- Decimal digit characters of a natural number, most significant first:
the reference form of what the standard decimal printer used for the request
id produces (proof device for reasoning about generated ids). -/
def natChars (n : Nat) : List Char :=
  if _h : n < 10 then [Nat.digitChar n]
  else natChars (n / 10) ++ [Nat.digitChar (n % 10)]
decreasing_by exact Nat.div_lt_self (by omega) (by omega)

/-- Numeric value of a decimal digit character. -/
def charVal (c : Char) : Nat := c.toNat - 48

example : (slidingWindowScript 5 10 1 "a" KeyState.empty).2 = 0 := by decide
example : (slidingWindowScript 5 10 0 "a" KeyState.empty).2 = 1 := by decide
example :
    (runCalls (NewRateLimiter 2 10) [(0, 0), (1, 1), (2, 2)] KeyState.empty).2 =
      [true, true, false] := by decide

/-- The eviction performed by the script keeps exactly the entries that are
still inside the sliding window: those with score + window > now. -/
theorem zrem_window_eq (now window : Nat) (h : List Entry) :
    zremrangebyscore 0 ((now : Int) - (window : Int)) h =
      h.filter fun e => decide (now < e.score + window) := by
  unfold zremrangebyscore
  apply List.filter_congr
  intro e _
  by_cases hc : now < e.score + window
  · have h1 : ¬ ((e.score : Int) ≤ (now : Int) - (window : Int)) := by omega
    simp [h1, hc]
  · have h1 : (e.score : Int) ≤ (now : Int) - (window : Int) := by omega
    simp [h1, hc]

/-- C3: whenever the store invocation made by IsRequestAllowed fails with any
error, IsRequestAllowed returns true (fail-open), for every limiter
configuration, every pair of clock readings and every prior history of the
key; the function's only output is the boolean, so no error value reaches
the caller. -/
theorem fail_open_on_store_error (rl : RateLimiter) (now nano : Nat)
    (e : String) (st : KeyState) :
    (rl.IsRequestAllowed now nano (some e) st).1 = true := rfl

/-- C5 counterexample: with limit = 0, a call made while the store is failing
returns true (fail-open), so it is not the case that every call returns
false. -/
theorem zero_limit_counterexample :
    ((NewRateLimiter 0 1000).IsRequestAllowed 5 7 (some "connection refused")
      KeyState.empty).1 = true := rfl

/-- C5 amended: with limit = 0 and the store invocation succeeding, every
call to IsRequestAllowed returns false, for every key state (the count check
count < 0-limit is never satisfied) and every window and clock readings. -/
theorem zero_limit_denies_when_store_ok (window now nano : Nat) (st : KeyState) :
    ((NewRateLimiter 0 window).IsRequestAllowed now nano none st).1 = false := by
  have hguard : ¬ (((zremrangebyscore 0 ((now : Int) - (window : Int)) st.hist).length : Int)
      < (0 : Int)) := by
    have := Int.natCast_nonneg (zremrangebyscore 0 ((now : Int) - (window : Int)) st.hist).length
    omega
  simp [RateLimiter.IsRequestAllowed, NewRateLimiter, slidingWindowScript, hguard]

/-- C10: for every limit < 0 (unvalidated configuration) the evaluator
denies every call when the store is reachable, exactly as limit = 0 does:
the decision is false, the script returns 1, and no entry is ever inserted
into the key's History (the resulting history is a sub-collection of the
prior one). -/
theorem negative_limit_denies (limit : Int) (window now nano : Nat)
    (id : String) (st : KeyState) (hneg : limit < 0) :
    ((NewRateLimiter limit window).IsRequestAllowed now nano none st).1 = false ∧
    (slidingWindowScript now window limit id st).2 = 1 ∧
    ∀ e ∈ (slidingWindowScript now window limit id st).1.hist, e ∈ st.hist := by
  have hguard : ∀ (s : String), ¬ (((zremrangebyscore 0 ((now : Int) - (window : Int))
      st.hist).length : Int) < limit) := by
    intro s
    have := Int.natCast_nonneg (zremrangebyscore 0 ((now : Int) - (window : Int)) st.hist).length
    omega
  refine ⟨?_, ?_, ?_⟩
  · simp [RateLimiter.IsRequestAllowed, NewRateLimiter, slidingWindowScript, hguard ""]
  · simp [slidingWindowScript, hguard ""]
  · intro e he
    simp only [slidingWindowScript] at he
    rw [if_neg (hguard "")] at he
    exact List.mem_of_mem_filter he

/-- C10 witness at limit = -1. -/
theorem negative_limit_denies_witness :
    ((NewRateLimiter (-1) 10).IsRequestAllowed 5 7 none KeyState.empty).1 = false :=
  (negative_limit_denies (-1) 10 5 7 "5-7" KeyState.empty (by decide)).1

/-- C8: the decision and resulting history for key B depend only on B's own
state, the window policy and the call's inputs: two stores that agree on B
produce the same decision and the same resulting state for B, and an
invocation addressed to any other key A leaves B's state untouched. -/
theorem key_isolation (B : String) (now window : Nat) (limit : Int)
    (id : String) (s1 s2 : Store) (hB : s1 B = s2 B) :
    ((runScript B now window limit id s1).2 = (runScript B now window limit id s2).2 ∧
     (runScript B now window limit id s1).1 B = (runScript B now window limit id s2).1 B) ∧
    ∀ (A : String) (s : Store), A ≠ B → (runScript A now window limit id s).1 B = s B := by
  refine ⟨⟨?_, ?_⟩, ?_⟩
  · simp [runScript, hB]
  · simp [runScript, hB]
  · intro A s hAB
    have hBA : B ≠ A := fun h => hAB h.symm
    simp [runScript, hBA]

/-- C8 witness: two concrete stores agreeing on key b but differing on key a
give the same decision for b, and a call on a leaves b untouched. -/
theorem key_isolation_witness :
    ((runScript "b" 5 10 1 "id" (fun _ => KeyState.empty)).2 =
      (runScript "b" 5 10 1 "id"
        (fun k => if k = "a" then ⟨[⟨0, "x"⟩], none⟩ else KeyState.empty)).2) ∧
    (runScript "a" 5 10 1 "id" (fun _ => KeyState.empty)).1 "b" = KeyState.empty :=
  ⟨((key_isolation "b" 5 10 1 "id" (fun _ => KeyState.empty)
      (fun k => if k = "a" then ⟨[⟨0, "x"⟩], none⟩ else KeyState.empty)
      (by decide)).1).1,
   (key_isolation "b" 5 10 1 "id" (fun _ => KeyState.empty)
      (fun _ => KeyState.empty) rfl).2 "a" (fun _ => KeyState.empty) (by decide)⟩

/-- C6: for every evaluator invocation at time now, (a) every entry with
timestamp + window ≤ now — in particular one exactly at now - window — is
evicted: only entries strictly inside the window survive the eviction;
(b) the decision counts only the surviving entries: the script admits
exactly when the number of entries with timestamp + window > now is below
the limit; (c) consequently, when a full key (at most limit entries)
contains an entry that has aged a full window, the call is admitted again,
even though the other entries may still be inside their own window. -/
theorem window_sliding_eviction (now window : Nat) (limit : Int) (id : String)
    (st : KeyState) :
    (∀ e ∈ zremrangebyscore 0 ((now : Int) - (window : Int)) st.hist,
        now < e.score + window) ∧
    ((slidingWindowScript now window limit id st).2 = 0 ↔
      (((st.hist.filter fun e => decide (now < e.score + window)).length : Int) < limit)) ∧
    ((st.hist.length : Int) ≤ limit →
      (∃ e ∈ st.hist, e.score + window ≤ now) →
      (slidingWindowScript now window limit id st).2 = 0) := by
  have hlive := zrem_window_eq now window st.hist
  refine ⟨?_, ?_, ?_⟩
  · intro e he
    rw [hlive] at he
    simpa using (List.mem_filter.mp he).2
  · by_cases hg : (((st.hist.filter fun e => decide (now < e.score + window)).length : Int) < limit)
    · rw [show (slidingWindowScript now window limit id st).2 = 0 by
        simp only [slidingWindowScript, hlive]; rw [if_pos hg]]
      simpa using hg
    · rw [show (slidingWindowScript now window limit id st).2 = 1 by
        simp only [slidingWindowScript, hlive]; rw [if_neg hg]]
      simp [hg]
  · intro hfull ⟨e, he, hstale⟩
    have hlt : (st.hist.filter fun e => decide (now < e.score + window)).length < st.hist.length := by
      refine List.length_filter_lt_length_iff_exists.mpr ⟨e, he, ?_⟩
      simpa using hstale
    have hg : (((st.hist.filter fun e => decide (now < e.score + window)).length : Int) < limit) := by
      omega
    simp only [slidingWindowScript, hlive]
    rw [if_pos hg]

/-- C6 witness: a full key (limit 1) whose single entry sits exactly at
now - window admits again at time 10 = 0 + 10. -/
theorem window_sliding_eviction_witness :
    (slidingWindowScript 10 10 1 "b" ⟨[⟨0, "a"⟩], none⟩).2 = 0 :=
  (window_sliding_eviction 10 10 1 "b" ⟨[⟨0, "a"⟩], none⟩).2.2 (by decide)
    ⟨⟨0, "a"⟩, by decide, by decide⟩

/-- Size invariant of reachable key states: the number of stored entries
never exceeds the limit (or 0 when the limit is negative, where nothing is
ever inserted). -/
theorem reachable_hist_length {limit : Int} {window : Nat} {st : KeyState}
    (h : Reachable limit window st) : (st.hist.length : Int) ≤ max limit 0 := by
  induction h with
  | empty => simp [KeyState.empty]
  | step st now id _ ih =>
    have hle : (zremrangebyscore 0 ((now : Int) - (window : Int)) st.hist).length
        ≤ st.hist.length := List.length_filter_le _ _
    by_cases hg : (((zremrangebyscore 0 ((now : Int) - (window : Int)) st.hist).length : Int) < limit)
    · simp only [slidingWindowScript]
      rw [if_pos hg]
      have hz : (zadd now id (zremrangebyscore 0 ((now : Int) - (window : Int)) st.hist)).length
          ≤ (zremrangebyscore 0 ((now : Int) - (window : Int)) st.hist).length + 1 := by
        simp only [zadd, List.length_append, List.length_cons, List.length_nil]
        have := List.length_filter_le (fun e => !(e.member == id))
          (zremrangebyscore 0 ((now : Int) - (window : Int)) st.hist)
        omega
      simp only []
      omega
    · simp only [slidingWindowScript]
      rw [if_neg hg]
      simp only []
      omega

/-- C2: for every key state reachable by any sequence of evaluator
invocations with a non-negative limit, and at every instant, the number of
History entries with timestamp ≥ now - window is at most limit. -/
theorem live_entries_bounded {limit : Int} {window : Nat} {st : KeyState}
    (h : Reachable limit window st) (hlim : 0 ≤ limit) (now : Nat) :
    (((st.hist.filter fun e => decide ((now : Int) - (window : Int) ≤ (e.score : Int))).length : Int)
      ≤ limit) := by
  have h1 := reachable_hist_length h
  have h2 := List.length_filter_le
    (fun e => decide ((now : Int) - (window : Int) ≤ (e.score : Int))) st.hist
  omega

/-- C2 witness: a concrete reachable state (one admission at time 0 with
limit 2, window 10) observed at instant 5. -/
theorem live_entries_bounded_witness :
    (((slidingWindowScript 0 10 2 "a" KeyState.empty).1.hist.filter
      fun e => decide ((5 : Int) - (10 : Int) ≤ (e.score : Int))).length : Int) ≤ 2 :=
  live_entries_bounded (Reachable.step KeyState.empty 0 "a" Reachable.empty) (by decide) 5

/-- C4: on a reachable key state, a denied invocation (script returns 1)
leaves the key's Redis state — its History and its expiry — exactly as it
was before the invocation began.  (The eviction step removes nothing here:
a denial implies the window already held limit live entries and reachable
states never hold more than limit entries in total, so no stale entry can
be present at denial time.) -/
theorem denied_invocation_no_mutation {limit : Int} {window : Nat} {st : KeyState}
    (h : Reachable limit window st) (now : Nat) (id : String)
    (hden : (slidingWindowScript now window limit id st).2 = 1) :
    (slidingWindowScript now window limit id st).1 = st := by
  by_cases hg : (((zremrangebyscore 0 ((now : Int) - (window : Int)) st.hist).length : Int) < limit)
  · exfalso
    have : (slidingWindowScript now window limit id st).2 = 0 := by
      simp only [slidingWindowScript]; rw [if_pos hg]
    omega
  · have hsize := reachable_hist_length h
    have hle : (zremrangebyscore 0 ((now : Int) - (window : Int)) st.hist).length
        ≤ st.hist.length := List.length_filter_le _ _
    have heq : (zremrangebyscore 0 ((now : Int) - (window : Int)) st.hist).length
        = st.hist.length := by omega
    have hfix : zremrangebyscore 0 ((now : Int) - (window : Int)) st.hist = st.hist := by
      unfold zremrangebyscore
      exact List.filter_eq_self.mpr (List.filter_length_eq_length.mp heq)
    simp only [slidingWindowScript]
    rw [if_neg hg, hfix]

/-- C4 witness: a denial on a concrete reachable state (limit 1, one
admission at time 0, denial at time 5) leaves the state untouched. -/
theorem denied_invocation_no_mutation_witness :
    (slidingWindowScript 5 10 1 "b" (slidingWindowScript 0 10 1 "a" KeyState.empty).1).1 =
      (slidingWindowScript 0 10 1 "a" KeyState.empty).1 :=
  denied_invocation_no_mutation
    (Reachable.step KeyState.empty 0 "a" Reachable.empty) 5 "b" (by decide)

/-- When no stored entry has aged out, the eviction step removes nothing. -/
theorem zrem_no_evict (now window : Nat) (hist : List Entry)
    (h : ∀ e ∈ hist, now < e.score + window) :
    zremrangebyscore 0 ((now : Int) - (window : Int)) hist = hist := by
  rw [zrem_window_eq]
  exact List.filter_eq_self.mpr fun e he => by simpa using h e he

/-- ZADD with a member not yet present appends one new entry. -/
theorem zadd_fresh (score : Nat) (member : String) (hist : List Entry)
    (h : ∀ e ∈ hist, e.member ≠ member) :
    zadd score member hist = hist ++ [⟨score, member⟩] := by
  unfold zadd
  rw [List.filter_eq_self.mpr fun e he => by simpa using h e he]

set_option maxHeartbeats 2000000 in
/-- Burst behaviour of a call sequence on one key: if every call and every
already-stored entry lies inside one common window [t0, t0 + window), and
the generated request ids are mutually distinct and absent from the stored
history, then the i-th call is admitted exactly when (stored + i) < limit.
This holds for every serialization order of the calls. -/
theorem runCalls_burst (rl : RateLimiter) (t0 : Nat) :
    ∀ (calls : List (Nat × Nat)) (hist : List Entry) (exp : Option Nat),
      (∀ c ∈ calls, t0 ≤ c.1 ∧ c.1 < t0 + rl.window) →
      (∀ e ∈ hist, t0 ≤ e.score) →
      ((calls.map fun c => requestID c.1 c.2).Nodup) →
      (∀ c ∈ calls, ∀ e ∈ hist, e.member ≠ requestID c.1 c.2) →
      (runCalls rl calls ⟨hist, exp⟩).2 =
        (List.range calls.length).map
          fun (i : Nat) => decide ((hist.length : Int) + (i : Int) < rl.limit) := by
  intro calls
  induction calls with
  | nil => intro hist exp _ _ _ _; rfl
  | cons c rest ih =>
    intro hist exp hin hsc hnodup hfresh
    obtain ⟨hct0, hclt⟩ := hin c (List.mem_cons_self c rest)
    have hev : zremrangebyscore 0 ((c.1 : Int) - (rl.window : Int)) hist = hist :=
      zrem_no_evict c.1 rl.window hist fun e he => by have := hsc e he; omega
    have hfhead : ∀ e ∈ hist, e.member ≠ requestID c.1 c.2 :=
      fun e he => hfresh c (List.mem_cons_self c rest) e he
    rw [List.map_cons, List.nodup_cons] at hnodup
    obtain ⟨hhead, htail⟩ := hnodup
    by_cases hg : ((hist.length : Int) < rl.limit)
    · have hz : zadd c.1 (requestID c.1 c.2) hist = hist ++ [⟨c.1, requestID c.1 c.2⟩] :=
        zadd_fresh c.1 (requestID c.1 c.2) hist hfhead
      have hstep : rl.IsRequestAllowed c.1 c.2 none ⟨hist, exp⟩ =
          (true, ⟨hist ++ [⟨c.1, requestID c.1 c.2⟩], some (c.1 + rl.window)⟩) := by
        simp only [RateLimiter.IsRequestAllowed, slidingWindowScript, hev, hz]
        rw [if_pos hg]
        simp
      have ihres := ih (hist ++ [⟨c.1, requestID c.1 c.2⟩]) (some (c.1 + rl.window))
        (fun c' hc' => hin c' (List.mem_cons_of_mem c hc'))
        (by
          intro e he
          rcases List.mem_append.mp he with h1 | h1
          · exact hsc e h1
          · simp at h1; subst h1; exact hct0)
        htail
        (by
          intro c' hc' e he
          rcases List.mem_append.mp he with h1 | h1
          · exact hfresh c' (List.mem_cons_of_mem c hc') e h1
          · simp at h1
            subst h1
            intro hcontra
            have hcontra' : requestID c.1 c.2 = requestID c'.1 c'.2 := hcontra
            exact hhead (hcontra' ▸ List.mem_map_of_mem (fun x => requestID x.1 x.2) hc'))
      simp only [runCalls, hstep, ihres, List.length_cons, List.range_succ_eq_map,
        List.map_cons, List.map_map]
      congr 1
      · simp [hg]
      · apply List.map_congr_left
        intro i _
        simp only [Function.comp_apply, List.length_append, List.length_cons, List.length_nil]
        rw [decide_eq_decide]
        push_cast
        omega
    · have hstep : rl.IsRequestAllowed c.1 c.2 none ⟨hist, exp⟩ = (false, ⟨hist, exp⟩) := by
        simp only [RateLimiter.IsRequestAllowed, slidingWindowScript, hev]
        rw [if_neg hg]
        simp
      have ihres := ih hist exp
        (fun c' hc' => hin c' (List.mem_cons_of_mem c hc'))
        hsc
        htail
        (fun c' hc' e he => hfresh c' (List.mem_cons_of_mem c hc') e he)
      simp only [runCalls, hstep, ihres, List.length_cons, List.range_succ_eq_map,
        List.map_cons, List.map_map]
      congr 1
      · simp [hg]
      · apply List.map_congr_left
        intro i _
        simp only [Function.comp_apply]
        rw [decide_eq_decide]
        push_cast
        omega

/-- The decisions of a burst of N + k in-window calls on one fresh key with
limit N, written as a list: N admissions followed by k denials. -/
theorem range_map_decide_lt (N k : Nat) :
    ((List.range (N + k)).map fun i => decide (i < N)) =
      List.replicate N true ++ List.replicate k false := by
  induction k with
  | zero =>
    simp only [Nat.add_zero, List.replicate, List.append_nil]
    refine List.eq_replicate_iff.mpr ⟨by simp, ?_⟩
    intro b hb
    obtain ⟨i, hi, rfl⟩ := List.mem_map.mp hb
    simp at hi
    simp [hi]
  | succ k ihk =>
    rw [show N + (k + 1) = (N + k) + 1 by omega, List.range_succ, List.map_append, ihk]
    have : ¬ (N + k < N) := by omega
    simp [this, List.replicate_succ' k.succ, List.replicate_succ']

/-- Specialisation of the burst decisions to the integer-cast form produced
by runCalls_burst on a fresh key. -/
theorem burst_decisions_eq (N k : Nat) :
    ((List.range (N + k)).map
      fun (i : Nat) => decide ((([] : List Entry).length : Int) + (i : Int) < ((N : Nat) : Int))) =
      List.replicate N true ++ List.replicate k false := by
  rw [← range_map_decide_lt N k]
  apply List.map_congr_left
  intro i _
  rw [decide_eq_decide]
  simp only [List.length_nil]
  push_cast
  omega

/-- C1: with limit N and window W, starting from a fresh key with the store
reachable, a sequence of N + 1 calls all lying in one window [t0, t0 + W)
and generating distinct request ids yields exactly N admissions followed by
one denial: the first N calls return true and the (N+1)-th returns false. -/
theorem quota_boundary (N window t0 : Nat) (calls : List (Nat × Nat))
    (hlen : calls.length = N + 1)
    (hin : ∀ c ∈ calls, t0 ≤ c.1 ∧ c.1 < t0 + window)
    (hids : (calls.map fun c => requestID c.1 c.2).Nodup) :
    (runCalls (NewRateLimiter (N : Int) window) calls KeyState.empty).2 =
      List.replicate N true ++ [false] := by
  have hb := runCalls_burst (NewRateLimiter (N : Int) window) t0 calls [] none
    hin (by simp) hids (by simp)
  simp only [NewRateLimiter] at hb ⊢
  rw [show KeyState.empty = (⟨[], none⟩ : KeyState) from rfl, hb, hlen]
  simpa using burst_decisions_eq N 1

/-- C1 witness: limit 1, window 10, two calls at times 0 and 1 in the same
window give decisions [true, false]. -/
theorem quota_boundary_witness :
    (runCalls (NewRateLimiter 1 10) [(0, 0), (1, 1)] KeyState.empty).2 =
      List.replicate 1 true ++ [false] :=
  quota_boundary 1 10 0 [(0, 0), (1, 1)] (by decide) (by decide) (by decide)

/-- C9: M > N calls issued against one fresh key with limit N, all within
one window, with distinct request ids, in any serialization order the store
may execute them in, produce exactly N admissions and M - N denials. -/
theorem atomic_burst_admissions (N M window t0 : Nat) (calls : List (Nat × Nat))
    (hlen : calls.length = M) (hNM : N < M)
    (hin : ∀ c ∈ calls, t0 ≤ c.1 ∧ c.1 < t0 + window)
    (hids : (calls.map fun c => requestID c.1 c.2).Nodup) :
    ((runCalls (NewRateLimiter (N : Int) window) calls KeyState.empty).2.count true = N) ∧
    ((runCalls (NewRateLimiter (N : Int) window) calls KeyState.empty).2.count false = M - N) := by
  have hb := runCalls_burst (NewRateLimiter (N : Int) window) t0 calls [] none
    hin (by simp) hids (by simp)
  simp only [NewRateLimiter] at hb ⊢
  rw [show KeyState.empty = (⟨[], none⟩ : KeyState) from rfl, hb, hlen,
    show M = N + (M - N) by omega, burst_decisions_eq N (M - N)]
  constructor <;> simp [List.count_append, List.count_replicate]

/-- C9 witness: three calls against a fresh key with limit 1 give exactly
one admission and two denials. -/
theorem atomic_burst_admissions_witness :
    ((runCalls (NewRateLimiter 1 10) [(0, 0), (1, 1), (2, 2)] KeyState.empty).2.count true = 1) ∧
    ((runCalls (NewRateLimiter 1 10) [(0, 0), (1, 1), (2, 2)] KeyState.empty).2.count false = 2) :=
  atomic_burst_admissions 1 3 10 0 [(0, 0), (1, 1), (2, 2)]
    (by decide) (by decide) (by decide) (by decide)

/-- The core decimal printer, run with enough fuel, produces the digit
characters of n followed by the accumulator. -/
theorem toDigitsCore_eq_natChars :
    ∀ (f n : Nat) (ds : List Char), n < f →
      Nat.toDigitsCore 10 f n ds = natChars n ++ ds := by
  intro f
  induction f with
  | zero => intro n ds h; omega
  | succ f ih =>
    intro n ds h
    by_cases h0 : n / 10 = 0
    · have hn : n < 10 := by omega
      rw [natChars]
      simp [Nat.toDigitsCore, h0, hn, Nat.mod_eq_of_lt hn]
    · have hn : ¬ n < 10 := fun hlt => h0 (Nat.div_eq_of_lt hlt)
      have hrec : n / 10 < f := by
        have h1 : n / 10 < n := Nat.div_lt_self (by omega) (by omega)
        omega
      rw [natChars]
      simp only [Nat.toDigitsCore, h0, if_false, hn, dite_false]
      rw [ih (n / 10) (Nat.digitChar (n % 10) :: ds) hrec]
      simp

/-- Digit characters decode back to their value. -/
theorem charVal_digitChar (d : Nat) (h : d < 10) :
    charVal (Nat.digitChar d) = d := by
  interval_cases d <;> decide

/-- No decimal digit character is the dash separator. -/
theorem digitChar_ne_dash (d : Nat) (h : d < 10) : Nat.digitChar d ≠ '-' := by
  interval_cases d <;> decide

/-- Every character of natChars is a decimal digit character. -/
theorem natChars_mem (n : Nat) : ∀ c ∈ natChars n, ∃ d, d < 10 ∧ c = Nat.digitChar d := by
  induction n using natChars.induct with
  | case1 n h =>
    intro c hc
    rw [natChars] at hc
    simp [h] at hc
    exact ⟨n, h, hc⟩
  | case2 n h ih =>
    intro c hc
    rw [natChars] at hc
    simp only [h, dite_false] at hc
    rcases List.mem_append.mp hc with h1 | h1
    · exact ih c h1
    · simp at h1
      exact ⟨n % 10, Nat.mod_lt n (by omega), h1⟩

/-- The dash separator never occurs among the digits of a number. -/
theorem dash_not_mem_natChars (n : Nat) : '-' ∉ natChars n := by
  intro hmem
  obtain ⟨d, hd, hc⟩ := natChars_mem n '-' hmem
  exact digitChar_ne_dash d hd hc.symm

/-- Folding the decimal digits of n back into a number recovers n. -/
theorem natChars_foldl (n : Nat) :
    ∀ acc, (natChars n).foldl (fun a c => 10 * a + charVal c) acc =
      acc * 10 ^ (natChars n).length + n := by
  induction n using natChars.induct with
  | case1 n h =>
    intro acc
    rw [natChars]
    simp [h, charVal_digitChar n h]
    omega
  | case2 n h ih =>
    intro acc
    rw [natChars]
    simp only [h, dite_false, List.foldl_append, List.length_append]
    rw [ih acc]
    simp [charVal_digitChar (n % 10) (Nat.mod_lt n (by omega))]
    have hpow : (10 : Nat) ^ ((natChars (n / 10)).length + 1) =
        10 ^ ((natChars (n / 10)).length) * 10 := pow_succ 10 _
    rw [hpow]
    have hmul : 10 * (acc * 10 ^ ((natChars (n / 10)).length) + n / 10) =
        acc * (10 ^ ((natChars (n / 10)).length) * 10) + 10 * (n / 10) := by ring
    rw [hmul]
    omega

/-- Two distinct numbers have distinct decimal digit strings. -/
theorem natChars_injective : Function.Injective natChars := by
  intro a b hab
  have ha := natChars_foldl a 0
  have hb := natChars_foldl b 0
  rw [hab] at ha
  simp at ha hb
  omega

/-- Splitting a character list at a dash is unambiguous when neither prefix
part contains a dash. -/
theorem append_dash_inj :
    ∀ (l1 : List Char) (l2 : List Char) (m1 : List Char) (m2 : List Char),
      '-' ∉ l1 → '-' ∉ m1 →
      l1 ++ '-' :: l2 = m1 ++ '-' :: m2 → l1 = m1 ∧ l2 = m2 := by
  intro l1
  induction l1 with
  | nil =>
    intro l2 m1 m2 _ h2 h
    cases m1 with
    | nil => simpa using h
    | cons y ys =>
      simp at h
      exact absurd (h.1 ▸ List.mem_cons_self y ys) (h.1 ▸ h2)
  | cons x xs ih =>
    intro l2 m1 m2 h1 h2 h
    cases m1 with
    | nil =>
      simp at h
      exact absurd (h.1 ▸ List.mem_cons_self x xs) (h.1 ▸ h1)
    | cons y ys =>
      simp only [List.cons_append, List.cons.injEq] at h
      obtain ⟨hxy, htl⟩ := h
      have := ih l2 ys m2 (fun hm => h1 (List.mem_cons_of_mem x hm))
        (fun hm => h2 (List.mem_cons_of_mem y hm)) htl
      exact ⟨by rw [hxy, this.1], this.2⟩

/-- The characters of the standard decimal printing of n are natChars n. -/
theorem repr_data_eq_natChars (n : Nat) : (Nat.repr n).data = natChars n := by
  unfold Nat.repr Nat.toDigits
  rw [toDigitsCore_eq_natChars (n + 1) n [] (Nat.lt_succ_self n)]
  simp [List.asString]

/-- The generated request id is the digits of the millisecond reading, a
dash, then the digits of the nanosecond reading. -/
theorem requestID_data (a b : Nat) :
    (requestID a b).data = natChars a ++ '-' :: natChars b := by
  show (toString "" ++ toString a ++ toString "-" ++ toString b ++ toString "").data = _
  simp only [String.data_append]
  show ([] : List Char) ++ (Nat.repr a).data ++ ['-'] ++ (Nat.repr b).data ++ [] = _
  rw [repr_data_eq_natChars, repr_data_eq_natChars]
  simp

/-- The request id encoding is injective in the pair of clock readings. -/
theorem requestID_inj (a b c d : Nat) (h : requestID a b = requestID c d) :
    a = c ∧ b = d := by
  have hd : (requestID a b).data = (requestID c d).data := by rw [h]
  rw [requestID_data, requestID_data] at hd
  obtain ⟨h1, h2⟩ := append_dash_inj _ _ _ _ (dash_not_mem_natChars a)
    (dash_not_mem_natChars c) hd
  exact ⟨natChars_injective h1, natChars_injective h2⟩

/-- C7 counterexample: two IsRequestAllowed calls that observe identical
clock readings (millisecond 5, nanosecond 7) — possible for two concurrent
processes sharing the store, or a clock of coarse resolution — generate the
same id, so although both invocations are admitted (both return 0), the
key's History afterwards holds a single entry: the two admissions were
merged, contradicting the claim that generated ids are always distinct. -/
theorem same_reading_merges_admissions :
    ((slidingWindowScript 5 100 2 (requestID 5 7) KeyState.empty).2 = 0) ∧
    ((slidingWindowScript 5 100 2 (requestID 5 7)
        (slidingWindowScript 5 100 2 (requestID 5 7) KeyState.empty).1).2 = 0) ∧
    ((slidingWindowScript 5 100 2 (requestID 5 7)
        (slidingWindowScript 5 100 2 (requestID 5 7) KeyState.empty).1).1.hist.length = 1) := by
  decide

/-- C7 amended: a generated unique-entry-id is distinct from every id
previously generated for the key whenever the two generating calls observed
distinct clock readings (millisecond, nanosecond); the encoding itself never
collides on distinct readings, but the code does not enforce that two calls
observe distinct readings. -/
theorem request_ids_distinct (n1 v1 n2 v2 : Nat) (h : (n1, v1) ≠ (n2, v2)) :
    requestID n1 v1 ≠ requestID n2 v2 := by
  intro hc
  obtain ⟨h1, h2⟩ := requestID_inj n1 v1 n2 v2 hc
  exact h (by rw [h1, h2])

/-- C7 witness: same millisecond, different nanosecond readings give
distinct ids. -/
theorem request_ids_distinct_witness : requestID 5 7 ≠ requestID 5 8 :=
  request_ids_distinct 5 7 5 8 (by decide)

end RateLimiterModel
